import Mathlib

set_option maxRecDepth 40000

/-!
Verification of the honeybee-energy annual schedule resolution engine.

This file is a shallow embedding of the schedule engine implemented in
`honeybee_energy/schedule/rule.py` (class `ScheduleRule`) and
`honeybee_energy/schedule/ruleset.py` (class `ScheduleRuleset`), together
with theorems settling the frozen claims about that code.

Modelling conventions:
* Ladybug `Date(month, day, leap_year)` objects (an external calendar
  utility consumed by the engine) are embedded as `HBDate` with day-of-year
  computed by standard calendar arithmetic; date comparison is calendar
  (month, day) order.
* `ScheduleDay` (day.py) is treated as an opaque value carrier: a name plus
  the list of per-timestep values that `values_at_timestep` returns at the
  timestep in play.  None of the claims depends on the internals of the
  daily expansion.
* Python `assert` statements are embedded as `Except String` results.
* Numeric schedule values are embedded as rationals.
-/

namespace HBE

/-- Embedding of a ladybug `Date`: a month/day pair with a leap-year flag. -/
structure HBDate where
  month : Nat
  day : Nat
  leap_year : Bool
deriving DecidableEq

/-- Number of calendar days strictly before the given month
(1 = January .. 12 = December), in a leap or non-leap year. -/
def daysBeforeMonth (leap : Bool) (m : Nat) : Nat :=
  let f : Nat := if leap then 1 else 0
  match m with
  | 1 => 0
  | 2 => 31
  | 3 => 59 + f
  | 4 => 90 + f
  | 5 => 120 + f
  | 6 => 151 + f
  | 7 => 181 + f
  | 8 => 212 + f
  | 9 => 243 + f
  | 10 => 273 + f
  | 11 => 304 + f
  | 12 => 334 + f
  | _ => 365 + f

/-- Number of days in the given month of a leap or non-leap year. -/
def daysInMonth (leap : Bool) (m : Nat) : Nat :=
  match m with
  | 1 => 31
  | 2 => if leap then 29 else 28
  | 3 => 31
  | 4 => 30
  | 5 => 31
  | 6 => 30
  | 7 => 31
  | 8 => 31
  | 9 => 30
  | 10 => 31
  | 11 => 30
  | 12 => 31
  | _ => 0

/-- Day-of-year of a date in its own calendar (ladybug `Date.doy`). -/
def HBDate.doy (d : HBDate) : Nat :=
  daysBeforeMonth d.leap_year d.month + d.day

/-- A date is valid when its month is 1..12 and its day fits the month. -/
def validDate (d : HBDate) : Prop :=
  1 ≤ d.month ∧ d.month ≤ 12 ∧ 1 ≤ d.day ∧ d.day ≤ daysInMonth d.leap_year d.month

instance (d : HBDate) : Decidable (validDate d) := by
  unfold validDate; infer_instance

/-- Calendar order on dates (month, then day), as used by the `<` and `<=`
comparisons on ladybug `Date` objects in the source. -/
def dateLt (a b : HBDate) : Bool :=
  a.month < b.month || (a.month = b.month && a.day < b.day)

/-- Non-strict calendar order on dates. -/
def dateLe (a b : HBDate) : Bool :=
  dateLt a b || (a.month = b.month && a.day = b.day)

/-- `ScheduleRule._doy_non_leap_year`: day-of-year of a date under the
canonical non-leap calendar even when the date carries a leap-year flag.
The source compares the date against `Date(2, 29, True)` (day-of-year 60 in
the leap calendar) and subtracts one from later leap dates. -/
def doy_non_leap_year (d : HBDate) : Nat :=
  if !d.leap_year then d.doy
  else if d.doy ≤ 60 then d.doy else d.doy - 1

/-- Opaque embedding of a `ScheduleDay` (day.py, outside the verified core):
its name plus the `values_at_timestep` output at the timestep in play. -/
structure ScheduleDayM where
  name : String
  tvals : List ℚ
deriving DecidableEq

/-- Embedding of `ScheduleRule` (rule.py): a day schedule, seven
day-of-week application flags, a holiday flag and a date range. -/
structure ScheduleRule where
  schedule_day : ScheduleDayM
  apply_sunday : Bool
  apply_monday : Bool
  apply_tuesday : Bool
  apply_wednesday : Bool
  apply_thursday : Bool
  apply_friday : Bool
  apply_saturday : Bool
  apply_holiday : Bool
  start_date : HBDate
  end_date : HBDate
deriving DecidableEq

/-- The derived `ScheduleRule._start_doy` field (computed through
`_doy_non_leap_year` whenever the start date is assigned). -/
def ScheduleRule.startDoy (r : ScheduleRule) : Nat := doy_non_leap_year r.start_date

/-- The derived `ScheduleRule._end_doy` field. -/
def ScheduleRule.endDoy (r : ScheduleRule) : Nat := doy_non_leap_year r.end_date

/-- `ScheduleRule.week_apply_tuple`: the 7 booleans Sunday..Saturday. -/
def ScheduleRule.week_apply_tuple (r : ScheduleRule) : List Bool :=
  [r.apply_sunday, r.apply_monday, r.apply_tuesday, r.apply_wednesday,
   r.apply_thursday, r.apply_friday, r.apply_saturday]

/-- Python sequence indexing on a list of booleans: non-negative indices
count from the front, negative indices count from the back
(`t[-1]` is the last element).  Out-of-range indices give `false`
(in Python they would raise; all uses here are in range). -/
def pyGetBool (l : List Bool) (i : Int) : Bool :=
  if 0 ≤ i then l.getD i.toNat false
  else l.getD (l.length - (-i).toNat) false

/-- `ScheduleRule.does_rule_apply_doy`: the rule's date range covers the
given non-leap day-of-year. -/
def ScheduleRule.does_rule_apply_doy (r : ScheduleRule) (doy : Nat) : Bool :=
  decide (r.startDoy ≤ doy) && decide (doy ≤ r.endDoy)

/-- `ScheduleRule.does_rule_apply_doy_leap_year`: the date range shifted to
the leap calendar (endpoints in March..December move one day later). -/
def ScheduleRule.does_rule_apply_doy_leap_year (r : ScheduleRule) (doy : Nat) : Bool :=
  let st := if r.start_date.month ≤ 2 then r.startDoy else r.startDoy + 1
  let en := if r.end_date.month ≤ 2 then r.endDoy else r.endDoy + 1
  decide (st ≤ doy) && decide (doy ≤ en)

/-- `ScheduleRule.does_rule_apply`: when `dow` is omitted the source derives
it as `doy % 7` and then indexes `week_apply_tuple[dow - 1]` with Python
semantics (so a derived `dow` of `0` indexes the last element, Saturday). -/
def ScheduleRule.does_rule_apply (r : ScheduleRule) (doy : Nat) (dow : Option Int) : Bool :=
  let dw : Int := dow.getD ((doy : Int) % 7)
  r.does_rule_apply_doy doy && pyGetBool r.week_apply_tuple (dw - 1)

/-- `ScheduleRule.does_rule_apply_leap_year`: leap-year variant. -/
def ScheduleRule.does_rule_apply_leap_year (r : ScheduleRule) (doy : Nat) (dow : Option Int) : Bool :=
  let dw : Int := dow.getD ((doy : Int) % 7)
  r.does_rule_apply_doy_leap_year doy && pyGetBool r.week_apply_tuple (dw - 1)

/-- `ScheduleRule._check_start_before_end`: the source asserts
`self._start_date < self._end_date` (strict calendar order). -/
def check_start_before_end (st en : HBDate) : Bool := dateLt st en

/-- `ScheduleRule.__init__`: `None` dates default to Jan 1 / Dec 31; the
`end_date` setter invoked at the end of construction runs
`_check_start_before_end`, so construction fails unless the (defaulted)
start date is strictly before the (defaulted) end date. -/
def scheduleRuleInit (sd : ScheduleDayM)
    (su mo tu we th fr sa ho : Bool)
    (start_date end_date : Option HBDate) : Except String ScheduleRule :=
  let st := start_date.getD ⟨1, 1, false⟩
  let en := end_date.getD ⟨12, 31, false⟩
  if check_start_before_end st en then
    .ok ⟨sd, su, mo, tu, we, th, fr, sa, ho, st, en⟩
  else
    .error "ScheduleRule start_date must come before end_date."

/-- The `ScheduleRule.start_date` property setter: defaults `None` to
Jan 1 and runs `_check_start_before_end` against the current end date. -/
def ScheduleRule.set_start_date (r : ScheduleRule) (v : Option HBDate) :
    Except String ScheduleRule :=
  let st := v.getD ⟨1, 1, false⟩
  if check_start_before_end st r.end_date then
    .ok { r with start_date := st }
  else
    .error "ScheduleRule start_date must come before end_date."

/-- The `ScheduleRule.end_date` property setter: defaults `None` to
Dec 31 and runs `_check_start_before_end` against the current start date. -/
def ScheduleRule.set_end_date (r : ScheduleRule) (v : Option HBDate) :
    Except String ScheduleRule :=
  let en := v.getD ⟨12, 31, false⟩
  if check_start_before_end r.start_date en then
    .ok { r with end_date := en }
  else
    .error "ScheduleRule start_date must come before end_date."

/-- Embedding of `ScheduleRuleset` (ruleset.py): a default day schedule and
a priority-ordered rule list (index 0 = highest priority).  The name, type
limit and design-day schedules play no role in any claim and are omitted. -/
structure ScheduleRuleset where
  default_day_schedule : ScheduleDayM
  schedule_rules : List ScheduleRule
deriving DecidableEq

/-- `ScheduleRuleset.is_single_week`: every rule spans the whole non-leap
year (the source short-circuits the empty rule list, on which `all` also
holds). -/
def ScheduleRuleset.is_single_week (s : ScheduleRuleset) : Bool :=
  s.schedule_rules.all fun r => decide (r.startDoy = 1) && decide (r.endDoy = 365)

/-- The rule-index-set of a day in `to_idf` (`rules_on_doy`): the tuple of
indices `i` with `rule._start_doy <= doy <= rule._end_doy`.  A tuple of
indices in increasing order is represented by the corresponding sublist of
`schedule_rules` in priority order, which is what every consumer of the
tuple scans. -/
def ScheduleRuleset.rules_on_doy (s : ScheduleRuleset) (doy : Nat) : List ScheduleRule :=
  s.schedule_rules.filter fun r => r.does_rule_apply_doy doy

/-- One day-of-week slot of `ScheduleRuleset._get_week_list`: the first rule
of the scanned list whose `week_apply_tuple[dow]` is set names the slot;
otherwise the default day schedule does. -/
def dowSlot (dflt : ScheduleDayM) (active : List ScheduleRule) (dow : Nat) : String :=
  match active.find? (fun r => r.week_apply_tuple.getD dow false) with
  | some r => r.schedule_day.name
  | none => dflt.name

/-- The holiday slot of `ScheduleRuleset._get_week_list`: the source scans
`self._schedule_rules` (all rules of the ruleset, not the `rule_indices`
passed in) for the first rule with `apply_holiday` set. -/
def holidaySlot (s : ScheduleRuleset) : String :=
  match s.schedule_rules.find? (fun r => r.apply_holiday) with
  | some r => r.schedule_day.name
  | none => s.default_day_schedule.name

/-- `ScheduleRuleset._get_week_list`: the 7 day-of-week slots resolved from
the given rule-index-set (as a sublist of rules in priority order, see
`rules_on_doy`), followed by the holiday slot. -/
def ScheduleRuleset.get_week_list (s : ScheduleRuleset) (active : List ScheduleRule) :
    List String :=
  [dowSlot s.default_day_schedule active 0,
   dowSlot s.default_day_schedule active 1,
   dowSlot s.default_day_schedule active 2,
   dowSlot s.default_day_schedule active 3,
   dowSlot s.default_day_schedule active 4,
   dowSlot s.default_day_schedule active 5,
   dowSlot s.default_day_schedule active 6,
   holidaySlot s]

/-- The week pattern the multi-week branch of `to_idf` associates with a
day-of-year: the deduplication over `unique_rule_sets` and over structurally
identical `week_tuples` maps each day to exactly the week list of its
rule-index-set, so the day-to-pattern map is this function. -/
def ScheduleRuleset.week_pattern_on_doy (s : ScheduleRuleset) (doy : Nat) : List String :=
  s.get_week_list (s.rules_on_doy doy)

/-- The change-point walk of `to_idf` (and of `average_schedules`): entries
are `(pattern, start_doy, end_doy)`; a new entry opens whenever the pattern
of the day differs from that of the previous day, the previous entry closing
on the prior day; the last entry closes on day 365.  The source stores the
boundaries as `Date.from_doy(doy)` objects; day-of-year numbers stand for
those dates here (`from_doy` is a bijection on 1..365).  `fuel` counts the
remaining loop iterations: the walk is entered at `doy = 2` with
`fuel = 364` and the currently open entry started at day 1. -/
def tlWalk {α : Type} [DecidableEq α] (f : Nat → α) :
    Nat → Nat → Nat → α → List (α × Nat × Nat)
  | 0, _, st, p => [(p, st, 365)]
  | fuel + 1, doy, st, p =>
    if f doy = p then tlWalk f fuel (doy + 1) st p
    else (p, st, doy - 1) :: tlWalk f fuel (doy + 1) doy (f doy)

/-- The year timeline of `ScheduleRuleset.to_idf`: a single whole-year entry
built from all rules when the schedule `is_single_week`, otherwise the
change-point walk over the 365 per-day week patterns. -/
def ScheduleRuleset.to_idf_timeline (s : ScheduleRuleset) : List (List String × Nat × Nat) :=
  if s.is_single_week then [(s.get_week_list s.schedule_rules, 1, 365)]
  else tlWalk s.week_pattern_on_doy 364 2 1 (s.week_pattern_on_doy 1)

/-- Replaying a timeline: the pattern of the (unique) entry whose day range
contains the given day-of-year. -/
def timeline_lookup {α : Type} (tl : List (α × Nat × Nat)) (doy : Nat) : Option α :=
  (tl.find? fun e => decide (e.2.1 ≤ doy) && decide (doy ≤ e.2.2)).map (·.1)

/-- The day profile `values()` resolves for a non-holiday day of a typical
year: the first rule in priority order whose `does_rule_apply(doy, dow)`
holds, else the default day schedule (`_get_sch_values`, non-holiday arm). -/
def ScheduleRuleset.values_day_profile (s : ScheduleRuleset) (doy : Nat) (dow : Int) :
    ScheduleDayM :=
  match s.schedule_rules.find? (fun r => r.does_rule_apply doy (some dow)) with
  | some r => r.schedule_day
  | none => s.default_day_schedule

/-- The day profile `values()` resolves for a non-holiday day of a leap year
(`_get_sch_values_leap_year`, non-holiday arm). -/
def ScheduleRuleset.values_day_profile_leap (s : ScheduleRuleset) (doy : Nat) (dow : Int) :
    ScheduleDayM :=
  match s.schedule_rules.find? (fun r => r.does_rule_apply_leap_year doy (some dow)) with
  | some r => r.schedule_day
  | none => s.default_day_schedule

/-- The per-day value block chosen inside `_get_sch_values`.  The source
carries `sch_day_vals` (one expanded value list per rule, the default's list
appended last) parallel to `schedule_rules` and indexes it by the matching
rule's position; the parallel lists are represented as a list of pairs with
the default's values kept separately. -/
def hbDaySelect (ruleVals : List (ScheduleRule × List ℚ)) (defVals : List ℚ)
    (holDoy : List Nat) (doy : Nat) (dow : Int) : List ℚ :=
  if doy ∈ holDoy then
    match ruleVals.find? (fun rv => rv.1.apply_holiday && rv.1.does_rule_apply_doy doy) with
    | some rv => rv.2
    | none => defVals
  else
    match ruleVals.find? (fun rv => rv.1.does_rule_apply doy (some dow)) with
    | some rv => rv.2
    | none => defVals

/-- The leap-year per-day value block (`_get_sch_values_leap_year`). -/
def hbDaySelectLeap (ruleVals : List (ScheduleRule × List ℚ)) (defVals : List ℚ)
    (holDoy : List Nat) (doy : Nat) (dow : Int) : List ℚ :=
  if doy ∈ holDoy then
    match ruleVals.find? (fun rv =>
        rv.1.apply_holiday && rv.1.does_rule_apply_doy_leap_year doy) with
    | some rv => rv.2
    | none => defVals
  else
    match ruleVals.find? (fun rv => rv.1.does_rule_apply_leap_year doy (some dow)) with
    | some rv => rv.2
    | none => defVals

/-- The day walk of `ScheduleRuleset._get_sch_values`: each iteration first
resets a day-of-week counter larger than 7 back to 1 (Sunday), appends the
day's value block and advances the counter.  `fuel` is the number of days
left to walk. -/
def get_sch_values_aux (ruleVals : List (ScheduleRule × List ℚ)) (defVals : List ℚ)
    (holDoy : List Nat) : Nat → Nat → Int → List ℚ
  | 0, _, _ => []
  | fuel + 1, doy, dow =>
    let dw : Int := if dow > 7 then 1 else dow
    hbDaySelect ruleVals defVals holDoy doy dw ++
      get_sch_values_aux ruleVals defVals holDoy fuel (doy + 1) (dw + 1)

/-- `ScheduleRuleset._get_sch_values`: walk the days from `start_date.doy`
to `end_date.doy` inclusive. -/
def get_sch_values (ruleVals : List (ScheduleRule × List ℚ)) (defVals : List ℚ)
    (holDoy : List Nat) (dow : Int) (startDoy endDoy : Nat) : List ℚ :=
  get_sch_values_aux ruleVals defVals holDoy (endDoy + 1 - startDoy) startDoy dow

/-- The leap-year day walk (`_get_sch_values_leap_year`). -/
def get_sch_values_leap_aux (ruleVals : List (ScheduleRule × List ℚ)) (defVals : List ℚ)
    (holDoy : List Nat) : Nat → Nat → Int → List ℚ
  | 0, _, _ => []
  | fuel + 1, doy, dow =>
    let dw : Int := if dow > 7 then 1 else dow
    hbDaySelectLeap ruleVals defVals holDoy doy dw ++
      get_sch_values_leap_aux ruleVals defVals holDoy fuel (doy + 1) (dw + 1)

/-- `ScheduleRuleset._get_sch_values_leap_year`. -/
def get_sch_values_leap_year (ruleVals : List (ScheduleRule × List ℚ)) (defVals : List ℚ)
    (holDoy : List Nat) (dow : Int) (startDoy endDoy : Nat) : List ℚ :=
  get_sch_values_leap_aux ruleVals defVals holDoy (endDoy + 1 - startDoy) startDoy dow

/-- `ScheduleRuleset._dow_text_to_int`, exactly as the class attribute is
written in the source: `{'sunday': 1, 'monday': 2, 'tuesday': 3,
'wednesday': 4, 'thursday': 2, 'friday': 3, 'saturday': 7}`. -/
def dow_text_to_int (s : String) : Option Int :=
  if s = "sunday" then some 1
  else if s = "monday" then some 2
  else if s = "tuesday" then some 3
  else if s = "wednesday" then some 4
  else if s = "thursday" then some 2
  else if s = "friday" then some 3
  else if s = "saturday" then some 7
  else none

/-- ASCII lowercasing of `start_dow.lower()` in `values()`. -/
def strLower (s : String) : String := ⟨s.data.map Char.toLower⟩

/-- The date reconstruction in `values()`: a supplied date whose
`leap_year` flag disagrees with the `leap_year` argument is rebuilt as
`Date(month, day, leap_year)`. -/
def normalize_date (d : HBDate) (leap : Bool) : HBDate :=
  if d.leap_year ≠ leap then ⟨d.month, d.day, leap⟩ else d

/-- `ScheduleRuleset.values`: expand each rule's day schedule and the
default (the per-timestep expansion is the opaque `tvals` field), rebuild
mismatched dates in the target calendar, assert `start_date <= end_date`,
normalize holiday dates to day-of-year numbers, translate `start_dow`
through `_dow_text_to_int` and run the day walk. -/
def ScheduleRuleset.values (s : ScheduleRuleset) (start_date end_date : HBDate)
    (start_dow : String) (holidays : List HBDate) (leap_year : Bool) :
    Except String (List ℚ) :=
  let ruleVals := s.schedule_rules.map fun r => (r, r.schedule_day.tvals)
  let defVals := s.default_day_schedule.tvals
  let sd := normalize_date start_date leap_year
  let ed := normalize_date end_date leap_year
  if dateLe sd ed then
    let holDoy := holidays.map fun h => (normalize_date h leap_year).doy
    match dow_text_to_int (strLower start_dow) with
    | none => .error "KeyError: start_dow"
    | some dow =>
      if leap_year then .ok (get_sch_values_leap_year ruleVals defVals holDoy dow sd.doy ed.doy)
      else .ok (get_sch_values ruleVals defVals holDoy dow sd.doy ed.doy)
  else
    .error "ScheduleRuleset values() start_date must come before end_date."

/-- Modelled from the spec: the behaviour the claim attributes to
`values()` — "uses the supplied start_date and end_date exactly as given and
does not reconstruct them in the target calendar ... performs no
normalization of the date".  Identical to `ScheduleRuleset.values` except
that the supplied start and end dates are used as given. -/
def ScheduleRuleset.values_no_normalize (s : ScheduleRuleset)
    (start_date end_date : HBDate) (start_dow : String) (holidays : List HBDate)
    (leap_year : Bool) : Except String (List ℚ) :=
  let ruleVals := s.schedule_rules.map fun r => (r, r.schedule_day.tvals)
  let defVals := s.default_day_schedule.tvals
  if dateLe start_date end_date then
    let holDoy := holidays.map fun h => (normalize_date h leap_year).doy
    match dow_text_to_int (strLower start_dow) with
    | none => .error "KeyError: start_dow"
    | some dow =>
      if leap_year then
        .ok (get_sch_values_leap_year ruleVals defVals holDoy dow start_date.doy end_date.doy)
      else .ok (get_sch_values ruleVals defVals holDoy dow start_date.doy end_date.doy)
  else
    .error "ScheduleRuleset values() start_date must come before end_date."

/-- `honeybee.typing.tuple_with_length` as used by `average_schedules`:
the weights list must have one entry per schedule. -/
def tuple_with_length (w : List ℚ) (n : Nat) : Except String (List ℚ) :=
  if w.length = n then .ok w else .error "average schedules weights length mismatch"

/-- The weight validation of `ScheduleRuleset.average_schedules`: omitted
weights become `1 / len(schedules)` each; supplied weights are checked for
length and then asserted to sum to exactly 1. -/
def average_schedules_weights (nSched : Nat) (weights : Option (List ℚ)) :
    Except String (List ℚ) :=
  match weights with
  | none => .ok (List.replicate nSched (1 / (nSched : ℚ)))
  | some w =>
    match tuple_with_length w nSched with
    | .error e => .error e
    | .ok w =>
      if w.sum = 1 then .ok w
      else .error "Average schedule weights must sum to 1."

instance {ε α : Type} [DecidableEq ε] [DecidableEq α] : DecidableEq (Except ε α) :=
  fun x y =>
    match x, y with
    | .ok a, .ok b =>
      if h : a = b then isTrue (by rw [h]) else isFalse (by simp [h])
    | .error a, .error b =>
      if h : a = b then isTrue (by rw [h]) else isFalse (by simp [h])
    | .ok _, .error _ => isFalse (by simp)
    | .error _, .ok _ => isFalse (by simp)

/-! ### Concrete fixtures used by witnesses and counterexamples -/

/-- A default day schedule with constant value 0. -/
def dayA : ScheduleDayM := ⟨"A", [0]⟩

/-- A rule day schedule with constant value 1. -/
def dayB : ScheduleDayM := ⟨"B", [1]⟩

/-- A rule applying the `dayB` profile on every day of the week over
Mar 1 .. Dec 31. -/
def ruleMarDec : ScheduleRule :=
  ⟨dayB, true, true, true, true, true, true, true, false, ⟨3, 1, false⟩, ⟨12, 31, false⟩⟩

/-- A schedule with the all-week Mar 1 .. Dec 31 rule over the `dayA`
default. -/
def schedMarDec : ScheduleRuleset := ⟨dayA, [ruleMarDec]⟩

/-- A rule applying `dayB` on Thursdays only, over the default full-year
range. -/
def ruleThursday : ScheduleRule :=
  ⟨dayB, false, false, false, false, true, false, false, false, ⟨1, 1, false⟩, ⟨12, 31, false⟩⟩

/-- A schedule with the Thursday-only rule over the `dayA` default. -/
def schedThursday : ScheduleRuleset := ⟨dayA, [ruleThursday]⟩

/-- A holiday-only rule (no day-of-week flag set) scoped to
Jun 1 .. Aug 31. -/
def ruleSummerHoliday : ScheduleRule :=
  ⟨dayB, false, false, false, false, false, false, false, true, ⟨6, 1, false⟩, ⟨8, 31, false⟩⟩

/-- A schedule with the summer holiday rule over the `dayA` default. -/
def schedSummerHoliday : ScheduleRuleset := ⟨dayA, [ruleSummerHoliday]⟩

/-- A schedule with no rules at all over the `dayA` default. -/
def schedPlain : ScheduleRuleset := ⟨dayA, []⟩

/-- An all-week full-year rule carrying the constant-2 profile `C`. -/
def ruleAllC : ScheduleRule :=
  ⟨⟨"C", [2]⟩, true, true, true, true, true, true, true, false, ⟨1, 1, false⟩, ⟨12, 31, false⟩⟩

/-- An all-week full-year rule carrying the constant-3 profile `D`. -/
def ruleAllD : ScheduleRule :=
  ⟨⟨"D", [3]⟩, true, true, true, true, true, true, true, false, ⟨1, 1, false⟩, ⟨12, 31, false⟩⟩

/-! ### Helper lemmas -/

theorem find?_congr {α : Type} {p q : α → Bool} :
    ∀ (l : List α), (∀ a ∈ l, p a = q a) → l.find? p = l.find? q := by
  intro l
  induction l with
  | nil => intro _; rfl
  | cons a t ih =>
    intro h
    have ha : p a = q a := h a (List.mem_cons_self a t)
    by_cases hq : q a = true
    · rw [List.find?_cons_of_pos t (ha ▸ hq), List.find?_cons_of_pos t hq]
    · rw [List.find?_cons_of_neg t (by simp [ha, hq]), List.find?_cons_of_neg t (by simp [hq])]
      exact ih fun a ha' => h a (List.mem_cons_of_mem _ ha')

/-- The change-point walk reproduces its generating day-to-pattern function:
looking any day of the walked range up in the produced timeline returns that
day's pattern. -/
theorem tlWalk_lookup {α : Type} [DecidableEq α] (f : Nat → α) :
    ∀ (fuel doy st : Nat) (p : α), doy + fuel = 366 → 1 ≤ st → st ≤ doy →
      (∀ k, st ≤ k → k < doy → f k = p) →
      ∀ d, st ≤ d → d ≤ 365 → timeline_lookup (tlWalk f fuel doy st p) d = some (f d) := by
  intro fuel
  induction fuel with
  | zero =>
    intro doy st p hdoy hst hstd hk d hd1 hd2
    have hfd : f d = p := hk d hd1 (by omega)
    have hcond : (decide (st ≤ d) && decide (d ≤ 365)) = true := by
      simp only [Bool.and_eq_true, decide_eq_true_eq]; omega
    unfold tlWalk timeline_lookup
    rw [List.find?_cons, hcond, hfd]
    rfl
  | succ n ih =>
    intro doy st p hdoy hst hstd hk d hd1 hd2
    rw [tlWalk]
    by_cases hch : f doy = p
    · rw [if_pos hch]
      exact ih (doy + 1) st p (by omega) hst (by omega)
        (fun k h1 h2 => by
          rcases Nat.lt_or_ge k doy with h | h
          · exact hk k h1 h
          · have : k = doy := by omega
            rw [this]; exact hch) d hd1 hd2
    · rw [if_neg hch]
      rcases Nat.lt_or_ge d doy with hlt | hge
      · have hfd : f d = p := hk d hd1 hlt
        have hcond : (decide (st ≤ d) && decide (d ≤ doy - 1)) = true := by
          simp only [Bool.and_eq_true, decide_eq_true_eq]; omega
        unfold timeline_lookup
        rw [List.find?_cons, hcond, hfd]
        rfl
      · have hcond : (decide (st ≤ d) && decide (d ≤ doy - 1)) = false := by
          simp only [Bool.and_eq_false_iff, decide_eq_false_iff_not]; omega
        unfold timeline_lookup
        rw [List.find?_cons, hcond]
        exact ih (doy + 1) doy (f doy) (by omega) (by omega) (by omega)
          (fun k h1 h2 => congrArg f (by omega : k = doy)) d hge hd2

/-- Replaying the `to_idf` timeline recovers exactly the per-day week
pattern, on every day of the (non-leap) year. -/
theorem timeline_lookup_pattern (s : ScheduleRuleset) (doy : Nat)
    (h1 : 1 ≤ doy) (h2 : doy ≤ 365) :
    timeline_lookup s.to_idf_timeline doy = some (s.week_pattern_on_doy doy) := by
  unfold ScheduleRuleset.to_idf_timeline
  by_cases hsw : s.is_single_week
  · rw [if_pos hsw]
    have hall : s.rules_on_doy doy = s.schedule_rules := by
      unfold ScheduleRuleset.rules_on_doy
      rw [List.filter_eq_self]
      intro r hr
      have := (List.all_eq_true.mp hsw) r hr
      simp only [Bool.and_eq_true, decide_eq_true_eq] at this
      simp [ScheduleRule.does_rule_apply_doy]; omega
    have hcond : (decide ((1 : Nat) ≤ doy) && decide (doy ≤ 365)) = true := by
      simp only [Bool.and_eq_true, decide_eq_true_eq]; omega
    unfold timeline_lookup
    rw [List.find?_cons, hcond]
    unfold ScheduleRuleset.week_pattern_on_doy
    rw [hall]
    rfl
  · rw [if_neg hsw]
    exact tlWalk_lookup s.week_pattern_on_doy 364 2 1 (s.week_pattern_on_doy 1)
      (by omega) (by omega) (by omega)
      (fun k hk1 hk2 => congrArg s.week_pattern_on_doy (by omega : k = 1)) doy h1 (by omega)

theorem decide_and_bool (a b : Bool) : decide (a = true ∧ b = true) = (a && b) := by
  cases a <;> cases b <;> rfl

/-- Python indexing `week_apply_tuple[dow - 1]` agrees with zero-based
front indexing for an explicit day-of-week 1..7. -/
theorem pyGetBool_week (r : ScheduleRule) (dow : Int) (h1 : 1 ≤ dow) (h7 : dow ≤ 7) :
    pyGetBool r.week_apply_tuple (dow - 1) = r.week_apply_tuple.getD (dow.toNat - 1) false := by
  interval_cases dow <;> rfl

theorem pyGetBool_nat (l : List Bool) (k : Nat) : pyGetBool l (k : Int) = l.getD k false := by
  simp [pyGetBool]

theorem get_week_list_getD (s : ScheduleRuleset) (active : List ScheduleRule)
    (k : Nat) (hk : k < 7) (x : String) :
    (s.get_week_list active).getD k x = dowSlot s.default_day_schedule active k := by
  interval_cases k <;> rfl

/-- The day-of-week slot of the week pattern `to_idf` synthesizes for a day
equals the day profile `values()` resolves for that day and day-of-week. -/
theorem week_slot_eq_profile (s : ScheduleRuleset) (doy : Nat) (dow : Int)
    (h1 : 1 ≤ dow) (h7 : dow ≤ 7) :
    (s.week_pattern_on_doy doy).getD (dow.toNat - 1) s.default_day_schedule.name
      = (s.values_day_profile doy dow).name := by
  have hfind : s.schedule_rules.find?
        (fun r => decide (r.does_rule_apply_doy doy = true ∧
          r.week_apply_tuple.getD (dow.toNat - 1) false = true))
      = s.schedule_rules.find? (fun r => r.does_rule_apply doy (some dow)) := by
    apply find?_congr
    intro r _
    rw [ScheduleRule.does_rule_apply]
    simp only [Option.getD_some]
    rw [decide_and_bool]
    have h2 : dow - 1 = ((dow.toNat - 1 : Nat) : Int) := by omega
    rw [h2, pyGetBool_nat]
  rw [ScheduleRuleset.week_pattern_on_doy,
    get_week_list_getD s _ (dow.toNat - 1) (by omega),
    ScheduleRuleset.values_day_profile]
  unfold dowSlot
  rw [ScheduleRuleset.rules_on_doy, List.find?_filter, hfind]
  cases s.schedule_rules.find? (fun r => r.does_rule_apply doy (some dow)) <;> rfl

theorem doy_le_of_month_le2 (d : HBDate) (hv : validDate d) (hl : d.leap_year = false)
    (hm : d.month ≤ 2) : 1 ≤ d.doy ∧ d.doy ≤ 59 := by
  obtain ⟨h1, h2, h3, h4⟩ := hv
  rw [hl] at h4
  have hdoy : d.doy = daysBeforeMonth false d.month + d.day := by rw [HBDate.doy, hl]
  interval_cases hm2 : d.month <;>
    simp [daysBeforeMonth, daysInMonth] at hdoy h4 <;> omega

theorem doy_ge_of_month_ge3 (d : HBDate) (hv : validDate d) (hl : d.leap_year = false)
    (hm : 3 ≤ d.month) : 60 ≤ d.doy ∧ d.doy ≤ 365 := by
  obtain ⟨h1, h2, h3, h4⟩ := hv
  rw [hl] at h4
  have hdoy : d.doy = daysBeforeMonth false d.month + d.day := by rw [HBDate.doy, hl]
  interval_cases hm2 : d.month <;>
    simp [daysBeforeMonth, daysInMonth] at hdoy h4 <;> omega

/-- For a rule whose dates are stored in the non-leap calendar, the
canonical-day remapping `d ↦ d` (Jan 1..Feb 29) / `d ↦ d - 1` (Mar 1
onward) turns leap-year range membership into non-leap range membership on
every day of a leap year other than Feb 29 (day 60). -/
theorem leap_range_equiv (r : ScheduleRule)
    (hs : validDate r.start_date) (he : validDate r.end_date)
    (hsl : r.start_date.leap_year = false) (hel : r.end_date.leap_year = false)
    (d : Nat) (h1 : 1 ≤ d) (h2 : d ≤ 366) (hne : d ≠ 60) :
    r.does_rule_apply_doy (if d ≤ 60 then d else d - 1)
      = r.does_rule_apply_doy_leap_year d := by
  have hst : r.startDoy = r.start_date.doy := by
    rw [ScheduleRule.startDoy, doy_non_leap_year, hsl]; rfl
  have hen : r.endDoy = r.end_date.doy := by
    rw [ScheduleRule.endDoy, doy_non_leap_year, hel]; rfl
  rw [ScheduleRule.does_rule_apply_doy, ScheduleRule.does_rule_apply_doy_leap_year]
  simp only [hst, hen]
  by_cases hs2 : r.start_date.month ≤ 2 <;> by_cases he2 : r.end_date.month ≤ 2
  · obtain ⟨hsa, hsb⟩ := doy_le_of_month_le2 _ hs hsl hs2
    obtain ⟨hea, heb⟩ := doy_le_of_month_le2 _ he hel he2
    rw [if_pos hs2, if_pos he2]
    congr 1 <;> rw [decide_eq_decide] <;> by_cases hd : d ≤ 60 <;>
      simp only [if_pos, if_neg, hd, ite_true, ite_false] <;> omega
  · obtain ⟨hsa, hsb⟩ := doy_le_of_month_le2 _ hs hsl hs2
    obtain ⟨hea, heb⟩ := doy_ge_of_month_ge3 _ he hel (by omega)
    rw [if_pos hs2, if_neg he2]
    congr 1 <;> rw [decide_eq_decide] <;> by_cases hd : d ≤ 60 <;>
      simp only [if_pos, if_neg, hd, ite_true, ite_false] <;> omega
  · obtain ⟨hsa, hsb⟩ := doy_ge_of_month_ge3 _ hs hsl (by omega)
    obtain ⟨hea, heb⟩ := doy_le_of_month_le2 _ he hel he2
    rw [if_neg hs2, if_pos he2]
    congr 1 <;> rw [decide_eq_decide] <;> by_cases hd : d ≤ 60 <;>
      simp only [if_pos, if_neg, hd, ite_true, ite_false] <;> omega
  · obtain ⟨hsa, hsb⟩ := doy_ge_of_month_ge3 _ hs hsl (by omega)
    obtain ⟨hea, heb⟩ := doy_ge_of_month_ge3 _ he hel (by omega)
    rw [if_neg hs2, if_neg he2]
    congr 1 <;> rw [decide_eq_decide] <;> by_cases hd : d ≤ 60 <;>
      simp only [if_pos, if_neg, hd, ite_true, ite_false] <;> omega

/-- Canonical-day remapping for the full applicability predicate with an
explicit day-of-week. -/
theorem leap_apply_equiv (r : ScheduleRule)
    (hs : validDate r.start_date) (he : validDate r.end_date)
    (hsl : r.start_date.leap_year = false) (hel : r.end_date.leap_year = false)
    (d : Nat) (h1 : 1 ≤ d) (h2 : d ≤ 366) (hne : d ≠ 60) (dow : Int) :
    r.does_rule_apply (if d ≤ 60 then d else d - 1) (some dow)
      = r.does_rule_apply_leap_year d (some dow) := by
  rw [ScheduleRule.does_rule_apply, ScheduleRule.does_rule_apply_leap_year]
  simp only [Option.getD_some]
  rw [leap_range_equiv r hs he hsl hel d h1 h2 hne]

/-- On every day of a leap year other than Feb 29, the leap-year day
resolution of `values()` coincides with the non-leap resolution at the
canonical day, provided the rules' dates are stored in the non-leap
calendar. -/
theorem values_day_profile_leap_eq (s : ScheduleRuleset)
    (hv : ∀ r ∈ s.schedule_rules, validDate r.start_date ∧ validDate r.end_date ∧
      r.start_date.leap_year = false ∧ r.end_date.leap_year = false)
    (d : Nat) (h1 : 1 ≤ d) (h2 : d ≤ 366) (hne : d ≠ 60) (dow : Int) :
    s.values_day_profile_leap d dow
      = s.values_day_profile (if d ≤ 60 then d else d - 1) dow := by
  rw [ScheduleRuleset.values_day_profile_leap, ScheduleRuleset.values_day_profile]
  rw [find?_congr s.schedule_rules (fun r hr => by
    obtain ⟨hs, he, hsl, hel⟩ := hv r hr
    exact (leap_apply_equiv r hs he hsl hel d h1 h2 hne dow).symm)]

/-- With no holidays, the per-day value block of the `values()` walk is the
expanded values of the day profile the day resolution selects. -/
theorem hbDaySelect_eq (s : ScheduleRuleset) (doy : Nat) (dow : Int) :
    hbDaySelect (s.schedule_rules.map fun r => (r, r.schedule_day.tvals))
        s.default_day_schedule.tvals [] doy dow
      = (s.values_day_profile doy dow).tvals := by
  rw [hbDaySelect, if_neg (by simp)]
  rw [List.find?_map, ScheduleRuleset.values_day_profile]
  rw [show s.schedule_rules.find?
        ((fun rv : ScheduleRule × List ℚ => rv.1.does_rule_apply doy (some dow)) ∘
          fun r => (r, r.schedule_day.tvals))
      = s.schedule_rules.find? (fun r => r.does_rule_apply doy (some dow)) from
    find?_congr _ (fun r _ => rfl)]
  cases h : s.schedule_rules.find? (fun r => r.does_rule_apply doy (some dow)) <;>
    simp [h]

/-! ### Claim theorems -/

/-- C1: replaying the compact calendar produced by `to_idf` — assigning to
each day the profile its timeline entry's week pattern gives for the day's
day-of-week — reproduces the day resolution of `values()`.  This holds for
every day of a non-leap year (first and second conjuncts, the second
linking the selected profile to the per-timestep value block of the
`values()` walk), and in a leap year for every day other than Feb 29
(day 60), a leap day being replayed through its canonical non-leap day
per the `_doy_non_leap_year` remapping.  On Feb 29 itself the replay can
disagree with `values()` (see the counterexample), which is why the claim
is amended to exclude that day. -/
theorem c1_compact_calendar_round_trip (s : ScheduleRuleset)
    (hv : ∀ r ∈ s.schedule_rules, validDate r.start_date ∧ validDate r.end_date ∧
      r.start_date.leap_year = false ∧ r.end_date.leap_year = false) :
    (∀ doy : Nat, 1 ≤ doy → doy ≤ 365 → ∀ dow : Int, 1 ≤ dow → dow ≤ 7 →
        (timeline_lookup s.to_idf_timeline doy).map
            (fun pat => pat.getD (dow.toNat - 1) s.default_day_schedule.name)
          = some (s.values_day_profile doy dow).name) ∧
    (∀ doy : Nat, ∀ dow : Int,
        hbDaySelect (s.schedule_rules.map fun r => (r, r.schedule_day.tvals))
            s.default_day_schedule.tvals [] doy dow
          = (s.values_day_profile doy dow).tvals) ∧
    (∀ d : Nat, 1 ≤ d → d ≤ 366 → d ≠ 60 → ∀ dow : Int, 1 ≤ dow → dow ≤ 7 →
        (timeline_lookup s.to_idf_timeline (if d ≤ 60 then d else d - 1)).map
            (fun pat => pat.getD (dow.toNat - 1) s.default_day_schedule.name)
          = some (s.values_day_profile_leap d dow).name) := by
  refine ⟨?_, ?_, ?_⟩
  · intro doy hd1 hd2 dow hw1 hw7
    rw [timeline_lookup_pattern s doy hd1 hd2]
    rw [Option.map_some']
    exact congrArg some (week_slot_eq_profile s doy dow hw1 hw7)
  · intro doy dow
    exact hbDaySelect_eq s doy dow
  · intro d hd1 hd2 hne dow hw1 hw7
    have hc1 : 1 ≤ (if d ≤ 60 then d else d - 1) := by
      by_cases h : d ≤ 60 <;> simp [h] <;> omega
    have hc2 : (if d ≤ 60 then d else d - 1) ≤ 365 := by
      by_cases h : d ≤ 60 <;> simp [h] <;> omega
    rw [timeline_lookup_pattern s _ hc1 hc2, Option.map_some']
    rw [values_day_profile_leap_eq s hv d hd1 hd2 hne dow]
    exact congrArg some (week_slot_eq_profile s _ dow hw1 hw7)

/-- Witness for C1: the round-trip theorem applied to the concrete
Mar 1 .. Dec 31 schedule on day 61 (Mar 2 of a non-leap year), Sunday. -/
theorem c1_compact_calendar_round_trip_witness :
    (timeline_lookup schedMarDec.to_idf_timeline 61).map
        (fun pat => pat.getD ((1 : Int).toNat - 1) schedMarDec.default_day_schedule.name)
      = some (schedMarDec.values_day_profile 61 1).name :=
  (c1_compact_calendar_round_trip schedMarDec (by decide)).1
    61 (by omega) (by omega) 1 (by omega) (by omega)

/-- Counterexample for C1 as frozen: in a leap year, Feb 29 (day 60,
canonical day 60, whose timeline entry is the one opened on Mar 1) is
replayed with the Mar 1 .. Dec 31 rule's profile `B`, while `values()`
resolves the default profile `A` on that day, because the rule's window in
the leap calendar only starts on day 61. -/
theorem c1_counterexample :
    (timeline_lookup schedMarDec.to_idf_timeline 60).map
        (fun pat => pat.getD 0 schedMarDec.default_day_schedule.name)
      = some dayB.name ∧
    (schedMarDec.values_day_profile_leap 60 1).name = dayA.name ∧
    dayB.name ≠ dayA.name := by decide

/-- C2: the `_dow_text_to_int` class attribute maps Sunday..Wednesday and
Saturday to their Sunday=1..Saturday=7 positions but maps `'thursday'` to 2
(Monday's position) and `'friday'` to 3 (Tuesday's position).  As a
consequence, `values()` over the single day Jan 1 with
`start_dow='thursday'` starts its counter at 2 and resolves the default
profile instead of a Thursday-only rule's profile. -/
theorem c2_dow_text_to_int :
    dow_text_to_int "sunday" = some 1 ∧ dow_text_to_int "monday" = some 2 ∧
    dow_text_to_int "tuesday" = some 3 ∧ dow_text_to_int "wednesday" = some 4 ∧
    dow_text_to_int "thursday" = some 2 ∧ dow_text_to_int "friday" = some 3 ∧
    dow_text_to_int "saturday" = some 7 ∧ (2 : Int) ≠ 5 ∧ (3 : Int) ≠ 6 ∧
    schedThursday.values ⟨1, 1, false⟩ ⟨1, 1, false⟩ "thursday" [] false
      = .ok dayA.tvals ∧
    get_sch_values [(ruleThursday, dayB.tvals)] dayA.tvals [] 5 1 1 = dayB.tvals ∧
    dayA.tvals ≠ dayB.tvals := by decide

/-- C3: in the multi-week branch of `to_idf`, the holiday slot of the week
pattern synthesized for a rule-index-set is resolved against all of the
ruleset's rules, not against the set: on Jan 10 the rule-index-set of the
summer-holiday schedule is empty, yet the synthesized week's holiday slot
(index 7) carries the Jun 1 .. Aug 31 holiday rule's profile `B` rather
than the default `A`. -/
theorem c3_week_list_holiday :
    schedSummerHoliday.is_single_week = false ∧
    schedSummerHoliday.rules_on_doy 10 = [] ∧
    (schedSummerHoliday.week_pattern_on_doy 10).getD 7 "" = dayB.name ∧
    timeline_lookup schedSummerHoliday.to_idf_timeline 10
      = some (schedSummerHoliday.week_pattern_on_doy 10) ∧
    dayB.name ≠ dayA.name := by decide

/-- C4 counterexample: a single schedule with weight 1/2 — the weights sum
to 1/2 ≤ 1, yet `average_schedules` raises its weight assertion. -/
theorem c4_counterexample :
    average_schedules_weights 1 (some [(1 : ℚ)/2])
      = .error "Average schedule weights must sum to 1." ∧
    ((1 : ℚ)/2 ≤ 1) := by
  constructor
  · simp only [average_schedules_weights, tuple_with_length, List.length_cons,
      List.length_nil, List.sum_cons, List.sum_nil]
    norm_num
  · norm_num

/-- C4 (amended): for supplied weights of the right length,
`average_schedules` accepts exactly the weight lists summing to exactly 1;
any other sum — including shortfalls strictly below 1 — raises the
precondition error. -/
theorem c4_amended (n : Nat) (w : List ℚ) (h : w.length = n) :
    (∃ v, average_schedules_weights n (some w) = .ok v) ↔ w.sum = 1 := by
  simp only [average_schedules_weights, tuple_with_length]
  rw [if_pos h]
  by_cases hs : w.sum = 1
  · simp [hs]
  · simp [hs]

/-- Witness for C4 (amended): the single weight 1 is accepted. -/
theorem c4_amended_witness :
    [(1 : ℚ)].length = 1 ∧
    ((∃ v, average_schedules_weights 1 (some [(1 : ℚ)]) = .ok v) ↔ [(1 : ℚ)].sum = 1) :=
  ⟨rfl, c4_amended 1 [(1 : ℚ)] rfl⟩

/-- C5 counterexample: a one-day rule with `start_date = end_date = May 5`
is rejected by `ScheduleRule.__init__`, because `_check_start_before_end`
asserts the strict comparison `start_date < end_date`. -/
theorem c5_counterexample :
    scheduleRuleInit dayB false false false false false false false false
      (some ⟨5, 5, false⟩) (some ⟨5, 5, false⟩)
      = .error "ScheduleRule start_date must come before end_date." := by decide

/-- C5 (amended): constructing a `ScheduleRule`, or setting its start or
end date, succeeds exactly when the (defaulted) start date is strictly
before the (defaulted) end date; in particular a one-day rule with equal
dates is rejected. -/
theorem c5_amended (sd : ScheduleDayM) (su mo tu we th fr sa ho : Bool)
    (stO enO : Option HBDate) (r : ScheduleRule) (v : Option HBDate) :
    ((∃ r', scheduleRuleInit sd su mo tu we th fr sa ho stO enO = .ok r') ↔
      dateLt (stO.getD ⟨1, 1, false⟩) (enO.getD ⟨12, 31, false⟩) = true) ∧
    ((∃ r', r.set_start_date v = .ok r') ↔
      dateLt (v.getD ⟨1, 1, false⟩) r.end_date = true) ∧
    ((∃ r', r.set_end_date v = .ok r') ↔
      dateLt r.start_date (v.getD ⟨12, 31, false⟩) = true) := by
  refine ⟨?_, ?_, ?_⟩
  · unfold scheduleRuleInit check_start_before_end
    by_cases h : dateLt (stO.getD ⟨1, 1, false⟩) (enO.getD ⟨12, 31, false⟩) <;> simp [h]
  · unfold ScheduleRule.set_start_date check_start_before_end
    by_cases h : dateLt (v.getD ⟨1, 1, false⟩) r.end_date <;> simp [h]
  · unfold ScheduleRule.set_end_date check_start_before_end
    by_cases h : dateLt r.start_date (v.getD ⟨12, 31, false⟩) <;> simp [h]

/-- C6 counterexample: `values()` does reconstruct mismatched dates.  With
a start date of Mar 1 carrying a leap-year flag and `leap_year=False`, the
code rebuilds the date in the non-leap calendar (day-of-year 60, so the
walk covers 306 days), while the claimed use-as-given behaviour
(`values_no_normalize`, modelled from the spec's words) would start the
walk at the supplied date's day-of-year 61 and cover 305 days. -/
theorem c6_counterexample :
    schedPlain.values ⟨3, 1, true⟩ ⟨12, 31, false⟩ "sunday" [] false
      ≠ schedPlain.values_no_normalize ⟨3, 1, true⟩ ⟨12, 31, false⟩ "sunday" [] false ∧
    (normalize_date ⟨3, 1, true⟩ false).doy = 60 ∧
    (⟨3, 1, true⟩ : HBDate).doy = 61 := by decide

/-- C6 (amended): `values()` normalizes the supplied dates: its result only
depends on the supplied dates through their reconstruction in the calendar
of the `leap_year` argument, so a caller passing mismatched dates gets the
auto-corrected dates, not the dates as given. -/
theorem c6_amended (s : ScheduleRuleset) (sd ed : HBDate) (dt : String)
    (hol : List HBDate) (leap : Bool) :
    s.values sd ed dt hol leap
      = s.values (normalize_date sd leap) (normalize_date ed leap) dt hol leap := by
  have hidem : ∀ d : HBDate, normalize_date (normalize_date d leap) leap
      = normalize_date d leap := by
    intro d
    unfold normalize_date
    by_cases h : d.leap_year = leap <;> simp [h]
  unfold ScheduleRuleset.values
  rw [hidem, hidem]

/-- C7: every day of the `values()` walk — the non-leap walk
(`_get_sch_values`) and the leap-year walk (`_get_sch_values_leap_year`)
alike — selects exactly one day value block — some rule's expanded values
or the default's, never nothing — and consequently, when every supplied day
expansion has length `L = 24 * timestep`, the walk over
`start_doy .. end_doy` returns exactly `(end_doy - start_doy + 1) * L`
values (8760 for a full non-leap year at timestep 1, 8784 for a full leap
year). -/
theorem c7_values_length (rv : List (ScheduleRule × List ℚ)) (dv : List ℚ)
    (hol : List Nat) (L sd ed : Nat) (dow : Int)
    (h1 : sd ≤ ed) (h2 : ∀ p ∈ rv, p.2.length = L) (h3 : dv.length = L) :
    (∀ (doy : Nat) (dw : Int), hbDaySelect rv dv hol doy dw ∈ rv.map Prod.snd ++ [dv]) ∧
    (get_sch_values rv dv hol dow sd ed).length = (ed - sd + 1) * L ∧
    (∀ (doy : Nat) (dw : Int),
      hbDaySelectLeap rv dv hol doy dw ∈ rv.map Prod.snd ++ [dv]) ∧
    (get_sch_values_leap_year rv dv hol dow sd ed).length = (ed - sd + 1) * L := by
  have hmem : ∀ (doy : Nat) (dw : Int),
      hbDaySelect rv dv hol doy dw ∈ rv.map Prod.snd ++ [dv] := by
    intro doy dw
    unfold hbDaySelect
    by_cases hh : doy ∈ hol
    · rw [if_pos hh]
      cases hfind : rv.find?
          (fun rv' => rv'.1.apply_holiday && rv'.1.does_rule_apply_doy doy) with
      | some p =>
        exact List.mem_append_left _
          (List.mem_map.mpr ⟨p, List.mem_of_find?_eq_some hfind, rfl⟩)
      | none => exact List.mem_append_right _ (List.mem_singleton.mpr rfl)
    · rw [if_neg hh]
      cases hfind : rv.find? (fun rv' => rv'.1.does_rule_apply doy (some dw)) with
      | some p =>
        exact List.mem_append_left _
          (List.mem_map.mpr ⟨p, List.mem_of_find?_eq_some hfind, rfl⟩)
      | none => exact List.mem_append_right _ (List.mem_singleton.mpr rfl)
  have hmemLeap : ∀ (doy : Nat) (dw : Int),
      hbDaySelectLeap rv dv hol doy dw ∈ rv.map Prod.snd ++ [dv] := by
    intro doy dw
    unfold hbDaySelectLeap
    by_cases hh : doy ∈ hol
    · rw [if_pos hh]
      cases hfind : rv.find?
          (fun rv' => rv'.1.apply_holiday && rv'.1.does_rule_apply_doy_leap_year doy) with
      | some p =>
        exact List.mem_append_left _
          (List.mem_map.mpr ⟨p, List.mem_of_find?_eq_some hfind, rfl⟩)
      | none => exact List.mem_append_right _ (List.mem_singleton.mpr rfl)
    · rw [if_neg hh]
      cases hfind : rv.find? (fun rv' => rv'.1.does_rule_apply_leap_year doy (some dw)) with
      | some p =>
        exact List.mem_append_left _
          (List.mem_map.mpr ⟨p, List.mem_of_find?_eq_some hfind, rfl⟩)
      | none => exact List.mem_append_right _ (List.mem_singleton.mpr rfl)
  have hofmem : ∀ (v : List ℚ), v ∈ rv.map Prod.snd ++ [dv] → v.length = L := by
    intro v hv
    rcases List.mem_append.mp hv with hm | hm
    · obtain ⟨p, hp, hpe⟩ := List.mem_map.mp hm
      rw [← hpe]
      exact h2 p hp
    · rw [List.mem_singleton.mp hm]
      exact h3
  have hlen : ∀ (doy : Nat) (dw : Int), (hbDaySelect rv dv hol doy dw).length = L :=
    fun doy dw => hofmem _ (hmem doy dw)
  have hlenLeap : ∀ (doy : Nat) (dw : Int),
      (hbDaySelectLeap rv dv hol doy dw).length = L :=
    fun doy dw => hofmem _ (hmemLeap doy dw)
  have haux : ∀ (n doy : Nat) (dw : Int),
      (get_sch_values_aux rv dv hol n doy dw).length = n * L := by
    intro n
    induction n with
    | zero => intro doy dw; simp [get_sch_values_aux]
    | succ m ih =>
      intro doy dw
      simp only [get_sch_values_aux, List.length_append, hlen, ih]
      ring
  have hauxLeap : ∀ (n doy : Nat) (dw : Int),
      (get_sch_values_leap_aux rv dv hol n doy dw).length = n * L := by
    intro n
    induction n with
    | zero => intro doy dw; simp [get_sch_values_leap_aux]
    | succ m ih =>
      intro doy dw
      simp only [get_sch_values_leap_aux, List.length_append, hlenLeap, ih]
      ring
  refine ⟨hmem, ?_, hmemLeap, ?_⟩
  · rw [get_sch_values, haux]
    congr 1
    omega
  · rw [get_sch_values_leap_year, hauxLeap]
    congr 1
    omega

/-- Witness for C7: the walks over a whole year with one rule and one-value
day expansions yield 365 values (non-leap) and, for the leap walk over
1..366, 366 values. -/
theorem c7_values_length_witness :
    ((∀ (doy : Nat) (dw : Int),
      hbDaySelect [(ruleMarDec, dayB.tvals)] dayA.tvals [] doy dw
        ∈ [(ruleMarDec, dayB.tvals)].map Prod.snd ++ [dayA.tvals]) ∧
    (get_sch_values [(ruleMarDec, dayB.tvals)] dayA.tvals [] 1 1 365).length
      = (365 - 1 + 1) * 1 ∧
    (∀ (doy : Nat) (dw : Int),
      hbDaySelectLeap [(ruleMarDec, dayB.tvals)] dayA.tvals [] doy dw
        ∈ [(ruleMarDec, dayB.tvals)].map Prod.snd ++ [dayA.tvals]) ∧
    (get_sch_values_leap_year [(ruleMarDec, dayB.tvals)] dayA.tvals [] 1 1 365).length
      = (365 - 1 + 1) * 1) ∧
    (get_sch_values_leap_year [(ruleMarDec, dayB.tvals)] dayA.tvals [] 1 1 366).length
      = (366 - 1 + 1) * 1 :=
  ⟨c7_values_length [(ruleMarDec, dayB.tvals)] dayA.tvals [] 1 1 365 1
      (by omega) (by decide) (by decide),
    (c7_values_length [(ruleMarDec, dayB.tvals)] dayA.tvals [] 1 1 366 1
      (by omega) (by decide) (by decide)).2.2.2⟩

/-- C8: when two rules both apply on a given day-of-year and day-of-week,
the `values()` walk takes the one listed first (lower index) and shadows
the other; swapping the two rules swaps the returned value block. -/
theorem c8_priority_order (a b : ScheduleRule) (va vb dv : List ℚ) (hol : List Nat)
    (doy : Nat) (dow : Int) (hnh : doy ∉ hol) (hd7 : dow ≤ 7)
    (ha : a.does_rule_apply doy (some dow) = true)
    (hb : b.does_rule_apply doy (some dow) = true) :
    hbDaySelect [(a, va), (b, vb)] dv hol doy dow = va ∧
    hbDaySelect [(b, vb), (a, va)] dv hol doy dow = vb ∧
    get_sch_values [(a, va), (b, vb)] dv hol dow doy doy = va ∧
    get_sch_values [(b, vb), (a, va)] dv hol dow doy doy = vb := by
  have hsel1 : hbDaySelect [(a, va), (b, vb)] dv hol doy dow = va := by
    unfold hbDaySelect
    rw [if_neg hnh,
      List.find?_cons_of_pos (p := fun rv => rv.1.does_rule_apply doy (some dow))
        [(b, vb)] (by exact ha)]
  have hsel2 : hbDaySelect [(b, vb), (a, va)] dv hol doy dow = vb := by
    unfold hbDaySelect
    rw [if_neg hnh,
      List.find?_cons_of_pos (p := fun rv => rv.1.does_rule_apply doy (some dow))
        [(a, va)] (by exact hb)]
  have hgs : ∀ p : List (ScheduleRule × List ℚ),
      get_sch_values p dv hol dow doy doy = hbDaySelect p dv hol doy dow := by
    intro p
    unfold get_sch_values
    rw [Nat.add_sub_cancel_left]
    simp only [get_sch_values_aux]
    rw [if_neg (by omega : ¬dow > 7), List.append_nil]
  exact ⟨hsel1, hsel2, by rw [hgs, hsel1], by rw [hgs, hsel2]⟩

/-- Witness for C8: two all-week full-year rules on day 5 (a Thursday when
Jan 1 is a Sunday): the walk returns the first rule's block, and the
swapped order returns the other. -/
theorem c8_priority_order_witness :
    hbDaySelect [(ruleAllC, [2]), (ruleAllD, [3])] [0] [] 5 5 = [2] ∧
    hbDaySelect [(ruleAllD, [3]), (ruleAllC, [2])] [0] [] 5 5 = [3] ∧
    get_sch_values [(ruleAllC, [2]), (ruleAllD, [3])] [0] [] 5 5 5 = [2] ∧
    get_sch_values [(ruleAllD, [3]), (ruleAllC, [2])] [0] [] 5 5 5 = [3] :=
  c8_priority_order ruleAllC ruleAllD [2] [3] [0] [] 5 5
    (by decide) (by omega) (by decide) (by decide)

/-- C9: a rule's leap-year window is its non-leap window with each endpoint
shifted one day later exactly when that endpoint's stored month is
March..December, unchanged for January/February; consequently the
Mar 1 .. Dec 31 rule covers days 61..366 of a leap year and days 60..365 of
a non-leap year, so Mar 1 (day 61 leap, day 60 non-leap) selects the rule's
profile in both calendars. -/
theorem c9_leap_doy_shift :
    (∀ (r : ScheduleRule) (doy : Nat),
        r.does_rule_apply_doy_leap_year doy
          = (decide (r.startDoy + (if 3 ≤ r.start_date.month then 1 else 0) ≤ doy) &&
             decide (doy ≤ r.endDoy + (if 3 ≤ r.end_date.month then 1 else 0)))) ∧
    (∀ doy : Nat, ruleMarDec.does_rule_apply_doy_leap_year doy
        = (decide (61 ≤ doy) && decide (doy ≤ 366))) ∧
    (∀ doy : Nat, ruleMarDec.does_rule_apply_doy doy
        = (decide (60 ≤ doy) && decide (doy ≤ 365))) ∧
    (∀ dow : Int, 1 ≤ dow → dow ≤ 7 →
        schedMarDec.values_day_profile_leap 61 dow = dayB ∧
        schedMarDec.values_day_profile 60 dow = dayB) := by
  refine ⟨?_, ?_, ?_, ?_⟩
  · intro r doy
    simp only [ScheduleRule.does_rule_apply_doy_leap_year]
    split_ifs <;> (congr 1 <;> rw [decide_eq_decide] <;> omega)
  · intro doy
    simp only [ScheduleRule.does_rule_apply_doy_leap_year]
    rw [if_neg (by decide : ¬ruleMarDec.start_date.month ≤ 2),
      if_neg (by decide : ¬ruleMarDec.end_date.month ≤ 2),
      show ruleMarDec.startDoy = 60 from by decide,
      show ruleMarDec.endDoy = 365 from by decide]
  · intro doy
    rw [ScheduleRule.does_rule_apply_doy,
      show ruleMarDec.startDoy = 60 from by decide,
      show ruleMarDec.endDoy = 365 from by decide]
  · intro dow hw1 hw7
    interval_cases dow <;> exact ⟨by decide, by decide⟩

/-- Witness for C9: the final conjunct applied on a Sunday. -/
theorem c9_leap_doy_shift_witness :
    schedMarDec.values_day_profile_leap 61 1 = dayB ∧
    schedMarDec.values_day_profile 60 1 = dayB :=
  c9_leap_doy_shift.2.2.2 1 (by omega) (by omega)

/-- C10: for days 1..365, omitting the day-of-week argument of
`does_rule_apply` is the same as passing the Jan-1-is-Sunday day of week
`((doy - 1) mod 7) + 1` explicitly: the internal `doy % 7` derivation is
right even on multiples of 7, where the index `0 - 1 = -1` selects the last
entry of the 7-tuple (Saturday) by Python indexing. -/
theorem c10_default_dow (r : ScheduleRule) (doy : Nat) (h1 : 1 ≤ doy) (h2 : doy ≤ 365) :
    r.does_rule_apply doy none
      = r.does_rule_apply doy (some (((doy : Int) - 1) % 7 + 1)) := by
  rw [ScheduleRule.does_rule_apply, ScheduleRule.does_rule_apply]
  simp only [Option.getD_none, Option.getD_some]
  congr 1
  rcases (by omega :
      ((doy : Int) % 7 = 0 ∧ ((doy : Int) - 1) % 7 = 6) ∨
      ((doy : Int) % 7 - 1 = ((doy : Int) - 1) % 7 ∧ 0 ≤ (doy : Int) % 7 - 1)) with
    ⟨hz, hz6⟩ | ⟨heq, hpos⟩
  · rw [hz, hz6]
    norm_num [pyGetBool]
    simp [ScheduleRule.week_apply_tuple]
  · rw [show ((doy : Int) - 1) % 7 + 1 - 1 = (doy : Int) % 7 - 1 from by omega]

/-- Witness for C10: the Thursday rule on day 7 (a Saturday). -/
theorem c10_default_dow_witness :
    ruleThursday.does_rule_apply 7 none
      = ruleThursday.does_rule_apply 7 (some (((7 : Int) - 1) % 7 + 1)) :=
  c10_default_dow ruleThursday 7 (by omega) (by omega)

end HBE
